import Mathlib

/-!
Verification development for the TFT season-16 analytics data pipeline.

The pipeline (scripts/data_processing.py and scripts/split_columns.py) is
shallowly embedded here:

* cells of a pandas table are `Val` (missing value, string, integer, boolean);
  string content is a `List Char`, mirroring Python strings as character
  sequences (whitespace is modelled by the ASCII whitespace characters that
  `str.strip` removes);
* a `DataFrame` is a header row (list of column names) plus a list of rows;
* the filesystem is a set of existing paths (`FS`), each path a list of
  segments; directory creation and the output-directory allocator are explicit
  state transformers over `FS`;
* `build_canonical_tables` is a function from the filesystem and the three raw
  tables to a trace of filesystem events plus either a build error or the
  written tables, mirroring the order of side effects in the source.
-/

deriving instance DecidableEq for Except

namespace TFT

/-- Whitespace characters removed by Python `str.strip` (ASCII range). -/
def isPySpace (c : Char) : Bool :=
  c == ' ' || c == '\t' || c == '\n' || c == '\r' || c == '\x0b' || c == '\x0c'

/-- Python `value.strip()`: drop leading and trailing whitespace. -/
def pyStrip (s : List Char) : List Char :=
  ((s.dropWhile isPySpace).reverse.dropWhile isPySpace).reverse

/-- Python `value.split(d)` for a single-character separator `d`:
splitting the empty string gives `[""]`, and `n` separators give `n + 1`
(possibly empty) fields. -/
def splitOnChar (d : Char) : List Char → List (List Char)
  | [] => [[]]
  | c :: cs =>
    if c = d then [] :: splitOnChar d cs
    else
      match splitOnChar d cs with
      | [] => [[c]]
      | t :: ts => (c :: t) :: ts

/-- Python `d.join(parts)` for single-character `d`. -/
def joinWith (d : Char) : List (List Char) → List Char
  | [] => []
  | [t] => t
  | t :: ts => t ++ d :: joinWith d ts

/-- A pandas cell value: missing (NaN/None), a string, an integer or a
boolean. -/
inductive Val where
  | na : Val
  | str : List Char → Val
  | int : Int → Val
  | bool : Bool → Val
deriving DecidableEq

/-- Python `str(value)` for the non-missing cell values we model. -/
def Val.pyStr : Val → List Char
  | .na => []
  | .str s => s
  | .int n => (toString n).toList
  | .bool b => if b then "True".toList else "False".toList

/-- The `_split` helper inside `parse_delimited_column`
(scripts/data_processing.py): missing or empty-string cells give `[]`
(`drop_empty`) or the one-element list with the original value; otherwise the
cell is split on the delimiter, each part is stripped, and empty parts are
dropped exactly when `drop_empty` is set. -/
def _split (d : Char) (drop_empty : Bool) (v : Val) : List Val :=
  match v with
  | .na => if drop_empty then [] else [Val.na]
  | .str [] => if drop_empty then [] else [Val.str []]
  | w =>
    let parts := (splitOnChar d (Val.pyStr w)).map pyStrip
    (if drop_empty then parts.filter (fun t => decide (t ≠ [])) else parts).map Val.str

/-- `parse_delimited_column`: apply `_split` to every cell of the series. -/
def parse_delimited_column (series : List Val) (d : Char) (drop_empty : Bool) :
    List (List Val) :=
  series.map (_split d drop_empty)

/-- Token list of one cell under the pipeline's parse (`drop_empty = true`). -/
def cellTokens (d : Char) (v : Val) : List (List Char) :=
  (_split d true v).filterMap (fun u => match u with | Val.str s => some s | _ => none)

/-- Per-cell action of `normalize_delimited_column`: parse and rejoin with the
same delimiter. -/
def normalizeCellVal (d : Char) (v : Val) : Val :=
  Val.str (joinWith d (cellTokens d v))

/-- Per-cell slot extraction used by `split_delimited_to_columns` and
`split_column`: the i-th token, or missing when the row has fewer tokens
(`lst[idx] if idx < len(lst) else pd.NA`). -/
def slotVal (ts : List (List Char)) (i : Nat) : Val :=
  match ts.get? i with
  | some t => Val.str t
  | none => Val.na

/-- The non-null slot reading of a cell: a string cell yields its content,
anything else (in particular a missing slot) yields nothing. -/
def strTok : Val → Option (List Char)
  | Val.str t => some t
  | _ => none

/-- Column name `f"\x7bpfx\x7d_\x7bi\x7d"` produced by the split operations. -/
def colName (pfx : String) (i : Nat) : String :=
  pfx ++ "_" ++ Nat.repr i

/-- A pandas DataFrame: column names plus rows of cells. -/
structure DataFrame where
  cols : List String
  rows : List (List Val)
deriving DecidableEq

/-- Well-formedness: every row has one cell per column. -/
def DataFrame.WF (df : DataFrame) : Prop :=
  ∀ r ∈ df.rows, r.length = df.cols.length

instance (df : DataFrame) : Decidable df.WF := by
  unfold DataFrame.WF; infer_instance

/-- The series of a column: the cell of each row at the column's position
(missing when the column is absent). -/
def DataFrame.getCol (df : DataFrame) (c : String) : List Val :=
  df.rows.map (fun r => r.getD (df.cols.indexOf c) Val.na)

/-- Pandas column assignment `df[c] = vals`: replace the column in place when
it exists, otherwise append it on the right. -/
def DataFrame.setCol (df : DataFrame) (c : String) (vals : List Val) : DataFrame :=
  if c ∈ df.cols then
    ⟨df.cols, List.zipWith (fun r v => r.set (df.cols.indexOf c) v) df.rows vals⟩
  else
    ⟨df.cols ++ [c], List.zipWith (fun r v => r ++ [v]) df.rows vals⟩

/-- Pandas `df.drop(columns=[c])` for a present column name. -/
def DataFrame.dropCol (df : DataFrame) (c : String) : DataFrame :=
  ⟨df.cols.eraseIdx (df.cols.indexOf c), df.rows.map (fun r => r.eraseIdx (df.cols.indexOf c))⟩

/-- Pandas `df.rename(columns=m)`. -/
def DataFrame.renameCols (df : DataFrame) (m : List (String × String)) : DataFrame :=
  ⟨df.cols.map (fun c => match m.lookup c with | some c2 => c2 | none => c), df.rows⟩

/-- Pandas boolean-mask row selection `df.loc[mask]` for a row predicate. -/
def DataFrame.filterRows (df : DataFrame) (p : List Val → Bool) : DataFrame :=
  ⟨df.cols, df.rows.filter p⟩

/-- Pandas column projection `df[names]`. -/
def DataFrame.selectCols (df : DataFrame) (names : List String) : DataFrame :=
  ⟨names, df.rows.map (fun r => names.map (fun c => r.getD (df.cols.indexOf c) Val.na))⟩

/-- `normalize_delimited_column`: rejoin each parsed cell of the column with
the delimiter; tables without the column pass through unchanged. -/
def normalize_delimited_column (df : DataFrame) (column : String) (d : Char) : DataFrame :=
  if column ∈ df.cols then
    df.setCol column ((df.getCol column).map (normalizeCellVal d))
  else df

/-- Width inferred by `split_delimited_to_columns` when `max_parts` is not
given: the maximum token count across rows, `0` for an empty table. -/
def inferredWidth (lists : List (List (List Char))) : Nat :=
  if lists.isEmpty then 0 else (lists.map List.length).foldl max 0

/-- `split_delimited_to_columns`: add one column per slot index,
`pfx_0 .. pfx_(w-1)`, where `w` is `max_parts` when given and the inferred
maximum token count otherwise. -/
def split_delimited_to_columns (df : DataFrame) (column : String) (pfx : String)
    (d : Char) (max_parts : Option Nat) : DataFrame :=
  if column ∈ df.cols then
    let lists := (df.getCol column).map (cellTokens d)
    let maxLen := max_parts.getD (inferredWidth lists)
    (List.range maxLen).foldl
      (fun out i => out.setCol (colName pfx i) (lists.map (fun ts => slotVal ts i))) df
  else df

/-- `explode_delimited_column`: parse the column, emit one row per token
(an empty token list leaves a single missing cell, as pandas `explode` does),
drop rows whose exploded cell is missing, and rename the column to
`value_name` (Python `value_name or column` treats the empty string as
missing). -/
def explode_delimited_column (df : DataFrame) (column : String) (d : Char)
    (value_name : Option String) : DataFrame :=
  let vn := match value_name with
    | none => column
    | some s => if s = "" then column else s
  let i := df.cols.indexOf column
  let rows1 := df.rows.flatMap (fun r =>
    match cellTokens d (r.getD i Val.na) with
    | [] => [r.set i Val.na]
    | ts => ts.map (fun t => r.set i (Val.str t)))
  let rows2 := rows1.filter (fun r => decide (r.getD i Val.na ≠ Val.na))
  ⟨df.cols.map (fun c => if c = column then vn else c), rows2⟩

/-- `_ensure_columns`: the required column names absent from the table, in
required order. -/
def missingCols (df : DataFrame) (required : List String) : List String :=
  required.filter (fun c => decide (c ∉ df.cols))

/-- `_ensure_columns` as a fallible step: error carries the table label and
the full list of that table's missing columns. -/
def ensure_columns (df : DataFrame) (required : List String) (label : String) :
    Except (String × List String) Unit :=
  if missingCols df required = [] then .ok () else .error (label, missingCols df required)

/-- Group keys of `participants.groupby("match_id")`: distinct non-missing
match ids. -/
def groupKeys (df : DataFrame) : List Val :=
  ((df.getCol "match_id").filter (fun v => decide (v ≠ Val.na))).dedup

/-- `groupby("match_id")["puuid"].nunique()` at one key: the number of
distinct non-missing puuid values among that match's rows. -/
def nuniquePuuids (df : DataFrame) (m : Val) : Nat :=
  (((((df.getCol "match_id").zip (df.getCol "puuid")).filter
      (fun p => decide (p.1 = m))).map Prod.snd).filter
      (fun v => decide (v ≠ Val.na))).dedup.length

/-- The mismatch mapping of `validate_participant_counts`: every group key
whose distinct-puuid count differs from the expected count, with its observed
count. -/
def participantMismatches (df : DataFrame) (expected : Nat) : List (Val × Nat) :=
  (groupKeys df).filterMap (fun m =>
    let c := nuniquePuuids df m
    if c = expected then none else some (m, c))

/-- `validate_participant_counts`: empty result when there is no mismatch,
otherwise the mismatch mapping — raised as an error when `strict`. -/
def validate_participant_counts (df : DataFrame) (expected : Nat) (strict : Bool) :
    Except (List (Val × Nat)) (List (Val × Nat)) :=
  let bad := participantMismatches df expected
  if bad = [] then .ok []
  else if strict then .error bad else .ok bad

/-- Pandas `placement <= win_threshold` on one cell (missing compares false). -/
def valLe (v : Val) (t : Int) : Bool :=
  match v with
  | .int n => decide (n ≤ t)
  | _ => false

/-- `add_participant_flags`: require `placement`, then add the derived
`is_win` column. -/
def add_participant_flags (df : DataFrame) (win_threshold : Int) :
    Except (String × List Val) DataFrame :=
  if missingCols df ["placement"] = [] then
    .ok (df.setCol "is_win" ((df.getCol "placement").map (fun v => Val.bool (valLe v win_threshold))))
  else .error ("participants", [])

/-- Pandas `tier_current > 0` on one cell (missing compares false). -/
def valGtZero (v : Val) : Bool :=
  match v with
  | .int n => decide (0 < n)
  | _ => false

/-- The filesystem: the set of existing paths, each a list of segments. -/
abbrev FS := List (List String)

/-- The nonempty prefixes of a path: the directories `mkdir(parents=True)`
guarantees to exist afterwards. -/
def parentsOf (p : List String) : List (List String) :=
  (List.range p.length).map (fun k => p.take (k + 1))

/-- `path.mkdir(parents=True, exist_ok=True)`: afterwards the path and all of
its prefixes exist. -/
def mkdirAll (fs : FS) (p : List String) : FS :=
  fs ++ parentsOf p

/-- `resolve_processed_output_dir`: fail when `base_dir/label` already exists,
otherwise create it (with parents) and return it. -/
def resolve_processed_output_dir (fs : FS) (base : List String) (label : String) :
    Except (List String) (FS × List String) :=
  let outDir := base ++ [label]
  if outDir ∈ fs then .error outDir
  else .ok (mkdirAll fs outDir, outDir)

/-- Filesystem side effects of `build_canonical_tables`, in program order. -/
inductive Event where
  | mkdirBase : Event
  | allocOut : Event
  | readTable : String → Event
  | writeTable : String → Event
deriving DecidableEq

/-- Failure conditions of `build_canonical_tables`. -/
inductive BuildErr where
  | dirExists : List String → BuildErr
  | missingColumns : String → List String → BuildErr
deriving DecidableEq

/-- The three raw tables, as loaded from the raw CSV files. -/
structure RawInput where
  participants : DataFrame
  units : DataFrame
  traits : DataFrame
deriving DecidableEq

/-- A successful build: the final filesystem, the allocated directory and the
three written tables. -/
structure BuildOutput where
  fs : FS
  outDir : List String
  participantsOut : DataFrame
  unitsOut : DataFrame
  traitsOut : DataFrame
deriving DecidableEq

/-- Required columns of the participants table. -/
def reqParticipants : List String := ["match_id", "puuid", "placement", "level"]

/-- Required columns of the units table. -/
def reqUnits : List String := ["match_id", "puuid", "unit_id", "star_level", "items"]

/-- Required columns of the traits table. -/
def reqTraits : List String := ["match_id", "puuid", "trait_id", "tier_current"]

/-- `build_canonical_tables`: create the base directory, allocate the labeled
output directory, read the three raw tables, check required columns table by
table, enrich participants, normalize and slot-split unit items, filter
inactive traits, and write the three canonical tables. The event list records
the filesystem side effects in source order. -/
def build_canonical_tables (fs : FS) (base : List String) (label : String)
    (inp : RawInput) (d : Char) : List Event × Except BuildErr BuildOutput :=
  let fs1 := mkdirAll fs base
  let ev1 : List Event := [Event.mkdirBase]
  match resolve_processed_output_dir fs1 base label with
  | .error p => (ev1, .error (BuildErr.dirExists p))
  | .ok (fs2, outDir) =>
    let ev2 := ev1 ++ [Event.allocOut, Event.readTable "participants",
      Event.readTable "units", Event.readTable "traits"]
    match ensure_columns inp.participants reqParticipants "participants" with
    | .error e => (ev2, .error (BuildErr.missingColumns e.1 e.2))
    | .ok _ =>
      match ensure_columns inp.units reqUnits "units" with
      | .error e => (ev2, .error (BuildErr.missingColumns e.1 e.2))
      | .ok _ =>
        match ensure_columns inp.traits reqTraits "traits" with
        | .error e => (ev2, .error (BuildErr.missingColumns e.1 e.2))
        | .ok _ =>
          match add_participant_flags inp.participants 4 with
          | .error _ => (ev2, .error (BuildErr.missingColumns "participants" ["placement"]))
          | .ok participantsOut =>
            let units1 := normalize_delimited_column inp.units "items" d
            let units2 := split_delimited_to_columns units1 "items" "item" d (some 3)
            let units3 := (units2.dropCol "items").renameCols
              [("unit_id", "unit_name"), ("star_level", "unit_tier")]
            let idx := inp.traits.cols.indexOf "tier_current"
            let traitsOut := inp.traits.filterRows (fun r => valGtZero (r.getD idx Val.na))
            let fs3 := fs2 ++ [outDir ++ ["participants.csv"], outDir ++ ["units.csv"],
              outDir ++ ["traits.csv"]]
            let ev3 := ev2 ++ [Event.writeTable "participants", Event.writeTable "units",
              Event.writeTable "traits"]
            (ev3, .ok ⟨fs3, outDir, participantsOut, units3, traitsOut⟩)

/-- `fillna("")` on one cell (scripts/split_columns.py). -/
def fillnaEmpty (v : Val) : Val :=
  match v with
  | .na => Val.str []
  | w => w

/-- Per-cell token list of `split_column` (scripts/split_columns.py): after
`fillna`, an empty-string cell gives no tokens, otherwise the cell is split on
the delimiter and each part is kept stripped when its stripped form is
nonempty. -/
def scParts (d : Char) (v : Val) : List (List Char) :=
  let w := fillnaEmpty v
  if w = Val.str [] then []
  else (splitOnChar d (Val.pyStr w)).filterMap
    (fun p => if pyStrip p = [] then none else some (pyStrip p))

/-- Width inferred by `split_column` when `max_parts` is not given:
`max((len(parts) for parts in parts_list), default=0)`. -/
def scInferredWidth (partsList : List (List (List Char))) : Nat :=
  partsList.foldl (fun a p => max a p.length) 0

/-- `split_column` (scripts/split_columns.py): compute per-row token lists,
add the slot columns, optionally drop the original column, and reorder so the
slot columns sit at the original column's position. -/
def split_column (df : DataFrame) (column : String) (pfx : String) (d : Char)
    (max_parts : Option Nat) (drop_original : Bool) : DataFrame :=
  if column ∈ df.cols then
    let partsList := (df.getCol column).map (scParts d)
    let width := max_parts.getD (scInferredWidth partsList)
    let out1 := (List.range width).foldl
      (fun out i => out.setCol (colName pfx i) (partsList.map (fun ps => slotVal ps i))) df
    let ordered := df.cols.flatMap (fun c =>
      if c = column then
        (if drop_original then [] else [c]) ++ (List.range width).map (colName pfx)
      else [c])
    let out2 := if drop_original then out1.dropCol column else out1
    out2.selectCols ordered
  else df


section StringLemmas

variable {α : Type _}

lemma dropWhile_head?_false (p : α → Bool) (l : List α) (c : α)
    (h : (l.dropWhile p).head? = some c) : p c = false := by
  induction l with
  | nil => simp [List.dropWhile] at h
  | cons a as ih =>
    rw [List.dropWhile_cons] at h
    cases hp : p a with
    | false =>
      rw [hp] at h
      simp only [Bool.false_eq_true, if_false, List.head?_cons, Option.some.injEq] at h
      rw [← h]; exact hp
    | true =>
      rw [hp] at h
      simp only [if_true] at h
      exact ih h

lemma dropWhile_idem (p : α → Bool) (l : List α) :
    (l.dropWhile p).dropWhile p = l.dropWhile p := by
  cases h : l.dropWhile p with
  | nil => simp
  | cons c t =>
    have hc : p c = false := dropWhile_head?_false p l c (by rw [h]; rfl)
    rw [List.dropWhile_cons, hc]
    simp

lemma prefix_head?_eq {l₁ l₂ : List α} (h : l₁ <+: l₂) (hne : l₁ ≠ []) :
    l₂.head? = l₁.head? := by
  obtain ⟨t, rfl⟩ := h
  cases l₁ with
  | nil => exact absurd rfl hne
  | cons a as => rfl

lemma splitOnChar_ne_nil (d : Char) (s : List Char) : splitOnChar d s ≠ [] := by
  induction s with
  | nil => exact List.cons_ne_nil [] []
  | cons c cs ih =>
    rw [splitOnChar]
    split
    · exact List.cons_ne_nil [] _
    · cases h : splitOnChar d cs with
      | nil => exact absurd h ih
      | cons t ts => exact List.cons_ne_nil _ _

lemma splitOnChar_exists_cons (d : Char) (s : List Char) :
    ∃ t ts, splitOnChar d s = t :: ts := by
  cases h : splitOnChar d s with
  | nil => exact absurd h (splitOnChar_ne_nil d s)
  | cons t ts => exact ⟨t, ts, rfl⟩

lemma splitOnChar_cons_eq (d a : Char) (as : List Char) (ha : ¬ a = d)
    {t0 : List Char} {ts : List (List Char)} (h : splitOnChar d as = t0 :: ts) :
    splitOnChar d (a :: as) = (a :: t0) :: ts := by
  rw [splitOnChar, if_neg ha, h]

lemma mem_splitOnChar_mem (d : Char) (s t : List Char) (ht : t ∈ splitOnChar d s) :
    ∀ c ∈ t, c ∈ s := by
  induction s generalizing t with
  | nil =>
    simp only [splitOnChar, List.mem_singleton] at ht
    subst ht; intro c hc; cases hc
  | cons a as ih =>
    by_cases ha : a = d
    · rw [splitOnChar, if_pos ha] at ht
      rcases List.mem_cons.mp ht with rfl | ht2
      · intro c hc; cases hc
      · intro c hc; exact List.mem_cons_of_mem a (ih t ht2 c hc)
    · obtain ⟨t0, ts, hsp⟩ := splitOnChar_exists_cons d as
      rw [splitOnChar_cons_eq d a as ha hsp] at ht
      rcases List.mem_cons.mp ht with rfl | ht2
      · intro c hc
        rcases List.mem_cons.mp hc with rfl | hc2
        · exact List.mem_cons_self c as
        · exact List.mem_cons_of_mem a (ih t0 (hsp ▸ List.mem_cons_self t0 ts) c hc2)
      · intro c hc
        exact List.mem_cons_of_mem a (ih t (hsp ▸ List.mem_cons_of_mem t0 ht2) c hc)

lemma not_mem_of_mem_splitOnChar (d : Char) (s t : List Char)
    (ht : t ∈ splitOnChar d s) : d ∉ t := by
  induction s generalizing t with
  | nil =>
    simp only [splitOnChar, List.mem_singleton] at ht
    subst ht; simp
  | cons a as ih =>
    by_cases ha : a = d
    · rw [splitOnChar, if_pos ha] at ht
      rcases List.mem_cons.mp ht with rfl | ht2
      · simp
      · exact ih t ht2
    · obtain ⟨t0, ts, hsp⟩ := splitOnChar_exists_cons d as
      rw [splitOnChar_cons_eq d a as ha hsp] at ht
      rcases List.mem_cons.mp ht with rfl | ht2
      · intro hd
        rcases List.mem_cons.mp hd with rfl | hd2
        · exact ha rfl
        · exact ih t0 (hsp ▸ List.mem_cons_self t0 ts) hd2
      · exact ih t (hsp ▸ List.mem_cons_of_mem t0 ht2)

lemma splitOnChar_of_not_mem (d : Char) (s : List Char) (h : d ∉ s) :
    splitOnChar d s = [s] := by
  induction s with
  | nil => rfl
  | cons c cs ih =>
    have hc : ¬ c = d := fun hcd => h (hcd ▸ List.mem_cons_self c cs)
    have hcs : d ∉ cs := fun hd => h (List.mem_cons_of_mem c hd)
    exact splitOnChar_cons_eq d c cs hc (ih hcs)

lemma splitOnChar_append_cons (d : Char) (t r : List Char) (ht : d ∉ t) :
    splitOnChar d (t ++ d :: r) = t :: splitOnChar d r := by
  induction t with
  | nil =>
    show splitOnChar d (d :: r) = [] :: splitOnChar d r
    rw [splitOnChar, if_pos rfl]
  | cons c cs ih =>
    have hc : ¬ c = d := fun hcd => ht (hcd ▸ List.mem_cons_self c cs)
    have hcs : d ∉ cs := fun hd => ht (List.mem_cons_of_mem c hd)
    rw [List.cons_append]
    exact splitOnChar_cons_eq d c _ hc (ih hcs)

lemma joinWith_cons_cons (d : Char) (t u : List Char) (ts : List (List Char)) :
    joinWith d (t :: u :: ts) = t ++ d :: joinWith d (u :: ts) := rfl

lemma splitOnChar_joinWith (d : Char) (ts : List (List Char)) (hne : ts ≠ [])
    (hd : ∀ t ∈ ts, d ∉ t) : splitOnChar d (joinWith d ts) = ts := by
  induction ts with
  | nil => exact absurd rfl hne
  | cons t ts ih =>
    cases ts with
    | nil =>
      show splitOnChar d (joinWith d [t]) = [t]
      rw [joinWith, splitOnChar_of_not_mem d t (hd t (List.mem_cons_self t []))]
    | cons u us =>
      rw [joinWith_cons_cons,
        splitOnChar_append_cons d t _ (hd t (List.mem_cons_self t _)),
        ih (by simp) (fun x hx => hd x (List.mem_cons_of_mem t hx))]

lemma pyStrip_idem (s : List Char) : pyStrip (pyStrip s) = pyStrip s := by
  unfold pyStrip
  set A := s.dropWhile isPySpace with hA
  set C := A.reverse.dropWhile isPySpace with hC
  have h1 : C.reverse.dropWhile isPySpace = C.reverse := by
    rcases hrev : C.reverse with _ | ⟨x, xs⟩
    · simp
    · have hrevne : C.reverse ≠ [] := by rw [hrev]; exact List.cons_ne_nil x xs
      have hpre : C.reverse <+: A := by
        rw [← List.reverse_reverse A]
        exact List.reverse_prefix.mpr (hC ▸ List.dropWhile_suffix isPySpace)
      have hhead : A.head? = some x := by
        rw [prefix_head?_eq hpre hrevne, hrev]; rfl
      have hxF : isPySpace x = false :=
        dropWhile_head?_false isPySpace s x (by rw [← hA, hhead])
      rw [List.dropWhile_cons, hxF]
      simp
  rw [h1, List.reverse_reverse]
  have h2 : C.dropWhile isPySpace = C := by
    rw [hC]; exact dropWhile_idem _ _
  rw [h2]

lemma mem_pyStrip_mem (s : List Char) (c : Char) (h : c ∈ pyStrip s) : c ∈ s := by
  unfold pyStrip at h
  rw [List.mem_reverse] at h
  have h2 := (List.dropWhile_sublist isPySpace).subset h
  rw [List.mem_reverse] at h2
  exact (List.dropWhile_sublist isPySpace).subset h2

lemma pyStrip_eq_nil (s : List Char) (h : ∀ c ∈ s, isPySpace c = true) :
    pyStrip s = [] := by
  unfold pyStrip
  rw [List.dropWhile_eq_nil_iff.mpr h]
  simp

end StringLemmas

section TokenLemmas

lemma filterMap_strVal (xs : List (List Char)) :
    (xs.map Val.str).filterMap
      (fun u => match u with | Val.str s => some s | _ => none) = xs := by
  induction xs with
  | nil => rfl
  | cons a as ih =>
    rw [List.map_cons, List.filterMap_cons]
    show a :: _ = a :: as
    rw [ih]

lemma cellTokens_na (d : Char) : cellTokens d Val.na = [] := rfl

lemma cellTokens_empty (d : Char) : cellTokens d (Val.str []) = [] := rfl

lemma cellTokens_str_cons (d a : Char) (s : List Char) :
    cellTokens d (Val.str (a :: s))
      = ((splitOnChar d (a :: s)).map pyStrip).filter (fun t => decide (t ≠ [])) := by
  show ((((splitOnChar d (a :: s)).map pyStrip).filter
      (fun t => decide (t ≠ []))).map Val.str).filterMap _ = _
  exact filterMap_strVal _

lemma cellTokens_int (d : Char) (n : Int) :
    cellTokens d (Val.int n)
      = ((splitOnChar d (Val.pyStr (Val.int n))).map pyStrip).filter
          (fun t => decide (t ≠ [])) := by
  show ((((splitOnChar d (Val.pyStr (Val.int n))).map pyStrip).filter
      (fun t => decide (t ≠ []))).map Val.str).filterMap _ = _
  exact filterMap_strVal _

lemma cellTokens_bool (d : Char) (b : Bool) :
    cellTokens d (Val.bool b)
      = ((splitOnChar d (Val.pyStr (Val.bool b))).map pyStrip).filter
          (fun t => decide (t ≠ [])) := by
  show ((((splitOnChar d (Val.pyStr (Val.bool b))).map pyStrip).filter
      (fun t => decide (t ≠ []))).map Val.str).filterMap _ = _
  exact filterMap_strVal _

lemma tokens_filter_props (d : Char) (s : List Char) :
    ∀ t ∈ ((splitOnChar d s).map pyStrip).filter (fun t => decide (t ≠ [])),
      t ≠ [] ∧ pyStrip t = t ∧ d ∉ t := by
  intro t ht
  rw [List.mem_filter] at ht
  obtain ⟨hmem, hne⟩ := ht
  obtain ⟨u, hu, rfl⟩ := List.mem_map.mp hmem
  refine ⟨by simpa using hne, pyStrip_idem u, fun hd => ?_⟩
  exact not_mem_of_mem_splitOnChar d s u hu (mem_pyStrip_mem u d hd)

lemma cellTokens_props (d : Char) (v : Val) :
    ∀ t ∈ cellTokens d v, t ≠ [] ∧ pyStrip t = t ∧ d ∉ t := by
  cases v with
  | na => intro t ht; cases ht
  | str s =>
    cases s with
    | nil => intro t ht; cases ht
    | cons a s => rw [cellTokens_str_cons]; exact tokens_filter_props d (a :: s)
  | int n => rw [cellTokens_int]; exact tokens_filter_props d _
  | bool b => rw [cellTokens_bool]; exact tokens_filter_props d _

lemma joinWith_ne_nil (d : Char) (t : List Char) (ts : List (List Char)) (ht : t ≠ []) :
    joinWith d (t :: ts) ≠ [] := by
  cases ts with
  | nil => simpa [joinWith] using ht
  | cons u us => simp [joinWith_cons_cons]

lemma cellTokens_joinWith (d : Char) (ts : List (List Char))
    (h : ∀ t ∈ ts, t ≠ [] ∧ pyStrip t = t ∧ d ∉ t) :
    cellTokens d (Val.str (joinWith d ts)) = ts := by
  cases ts with
  | nil => rfl
  | cons t us =>
    have hne : joinWith d (t :: us) ≠ [] :=
      joinWith_ne_nil d t us (h t (List.mem_cons_self t us)).1
    rcases hj : joinWith d (t :: us) with _ | ⟨a, s⟩
    · exact absurd hj hne
    · rw [cellTokens_str_cons, ← hj,
        splitOnChar_joinWith d (t :: us) (by simp) (fun x hx => (h x hx).2.2),
        List.map_congr_left (fun x hx => (h x hx).2.1)]
      rw [show List.map (fun x : List Char => x) (t :: us) = t :: us from List.map_id _]
      exact List.filter_eq_self.mpr (fun x hx => by simpa using (h x hx).1)

end TokenLemmas


section DataFrameLemmas

lemma getCol_length (df : DataFrame) (c : String) :
    (df.getCol c).length = df.rows.length := by
  simp [DataFrame.getCol]

lemma exists_of_mem_zipWith {α β γ : Type _} {f : α → β → γ} :
    ∀ {as : List α} {bs : List β} {x : γ}, x ∈ List.zipWith f as bs →
      ∃ a ∈ as, ∃ b ∈ bs, x = f a b := by
  intro as
  induction as with
  | nil => intro bs x hx; simp at hx
  | cons a as ih =>
    intro bs x hx
    cases bs with
    | nil => simp at hx
    | cons b bs =>
      rw [List.zipWith_cons_cons] at hx
      rcases List.mem_cons.mp hx with rfl | hx2
      · exact ⟨a, List.mem_cons_self a as, b, List.mem_cons_self b bs, rfl⟩
      · obtain ⟨a2, ha2, b2, hb2, rfl⟩ := ih hx2
        exact ⟨a2, List.mem_cons_of_mem a ha2, b2, List.mem_cons_of_mem b hb2, rfl⟩

lemma zipWith_set_getD_self :
    ∀ (rows : List (List Val)) (vs : List Val) (i : Nat),
      (∀ r ∈ rows, i < r.length) → vs.length = rows.length →
      (List.zipWith (fun r v => r.set i v) rows vs).map (fun r => r.getD i Val.na) = vs := by
  intro rows
  induction rows with
  | nil =>
    intro vs i h hlen
    cases vs with
    | nil => rfl
    | cons v vv => simp at hlen
  | cons r rs ih =>
    intro vs i h hlen
    cases vs with
    | nil => simp at hlen
    | cons v vv =>
      rw [List.zipWith_cons_cons, List.map_cons]
      congr 1
      · rw [List.getD_eq_getElem?_getD, List.getElem?_set_self (h r (List.mem_cons_self r rs))]
        rfl
      · exact ih vv i (fun x hx => h x (List.mem_cons_of_mem r hx)) (by simpa using hlen)

lemma zipWith_set_getD_ne :
    ∀ (rows : List (List Val)) (vs : List Val) (i j : Nat), i ≠ j →
      (List.zipWith (fun r v => r.set i v) rows vs).map (fun r => r.getD j Val.na)
        = (List.zipWith (fun r _ => r) rows vs).map (fun r => r.getD j Val.na) := by
  intro rows
  induction rows with
  | nil => intro vs i j hij; cases vs <;> rfl
  | cons r rs ih =>
    intro vs i j hij
    cases vs with
    | nil => rfl
    | cons v vv =>
      rw [List.zipWith_cons_cons, List.zipWith_cons_cons, List.map_cons, List.map_cons]
      congr 1
      · rw [List.getD_eq_getElem?_getD, List.getD_eq_getElem?_getD, List.getElem?_set_ne hij]
      · exact ih vv i j hij

lemma zipWith_fst_eq_map {β : Type _} :
    ∀ (rows : List (List Val)) (vs : List β) (g : List Val → Val),
      vs.length = rows.length →
      (List.zipWith (fun r _ => r) rows vs).map g = rows.map g := by
  intro rows
  induction rows with
  | nil => intro vs g _; cases vs <;> rfl
  | cons r rs ih =>
    intro vs g hlen
    cases vs with
    | nil => simp at hlen
    | cons v vv =>
      rw [List.zipWith_cons_cons, List.map_cons, List.map_cons, ih vv g (by simpa using hlen)]

lemma zipWith_append_getD_at :
    ∀ (rows : List (List Val)) (vs : List Val) (n : Nat),
      (∀ r ∈ rows, r.length = n) → vs.length = rows.length →
      (List.zipWith (fun r v => r ++ [v]) rows vs).map (fun r => r.getD n Val.na) = vs := by
  intro rows
  induction rows with
  | nil =>
    intro vs n h hlen
    cases vs with
    | nil => rfl
    | cons v vv => simp at hlen
  | cons r rs ih =>
    intro vs n h hlen
    cases vs with
    | nil => simp at hlen
    | cons v vv =>
      rw [List.zipWith_cons_cons, List.map_cons]
      congr 1
      · have hr : r.length = n := h r (List.mem_cons_self r rs)
        rw [List.getD_append_right r [v] Val.na n (by rw [hr])]
        rw [hr]
        simp
      · exact ih vv n (fun x hx => h x (List.mem_cons_of_mem r hx)) (by simpa using hlen)

lemma zipWith_append_getD_lt :
    ∀ (rows : List (List Val)) (vs : List Val) (j n : Nat), j < n →
      (∀ r ∈ rows, r.length = n) →
      (List.zipWith (fun r v => r ++ [v]) rows vs).map (fun r => r.getD j Val.na)
        = (List.zipWith (fun r _ => r) rows vs).map (fun r => r.getD j Val.na) := by
  intro rows
  induction rows with
  | nil => intro vs j n hj h; cases vs <;> rfl
  | cons r rs ih =>
    intro vs j n hj h
    cases vs with
    | nil => rfl
    | cons v vv =>
      rw [List.zipWith_cons_cons, List.zipWith_cons_cons, List.map_cons, List.map_cons]
      congr 1
      · exact List.getD_append r [v] Val.na j (by rw [h r (List.mem_cons_self r rs)]; exact hj)
      · exact ih vv j n hj (fun x hx => h x (List.mem_cons_of_mem r hx))

lemma zipWith_append_getD_ge :
    ∀ (rows : List (List Val)) (vs : List Val) (j n : Nat), n + 1 ≤ j →
      (∀ r ∈ rows, r.length = n) →
      (List.zipWith (fun r v => r ++ [v]) rows vs).map (fun r => r.getD j Val.na)
        = (List.zipWith (fun r _ => r) rows vs).map (fun _ => Val.na) := by
  intro rows
  induction rows with
  | nil => intro vs j n hj h; cases vs <;> rfl
  | cons r rs ih =>
    intro vs j n hj h
    cases vs with
    | nil => rfl
    | cons v vv =>
      rw [List.zipWith_cons_cons, List.zipWith_cons_cons, List.map_cons, List.map_cons]
      congr 1
      · apply List.getD_eq_default
        rw [List.length_append, h r (List.mem_cons_self r rs)]
        simpa using hj
      · exact ih vv j n hj (fun x hx => h x (List.mem_cons_of_mem r hx))

lemma setCol_cols_of_mem {df : DataFrame} {c : String} (vs : List Val)
    (h : c ∈ df.cols) : (df.setCol c vs).cols = df.cols := by
  rw [DataFrame.setCol, if_pos h]

lemma setCol_cols_of_not_mem {df : DataFrame} {c : String} (vs : List Val)
    (h : c ∉ df.cols) : (df.setCol c vs).cols = df.cols ++ [c] := by
  rw [DataFrame.setCol, if_neg h]

lemma setCol_rows_length {df : DataFrame} {c : String} {vs : List Val}
    (hlen : vs.length = df.rows.length) :
    (df.setCol c vs).rows.length = df.rows.length := by
  rw [DataFrame.setCol]
  split <;> simp [hlen]

lemma WF_setCol {df : DataFrame} {c : String} {vs : List Val}
    (hwf : df.WF) (hlen : vs.length = df.rows.length) : (df.setCol c vs).WF := by
  rw [DataFrame.setCol]
  split
  · intro r' hr'
    obtain ⟨r, hr, v, hv, rfl⟩ := exists_of_mem_zipWith hr'
    rw [List.length_set]
    exact hwf r hr
  · intro r' hr'
    obtain ⟨r, hr, v, hv, rfl⟩ := exists_of_mem_zipWith hr'
    rw [List.length_append, hwf r hr]
    simp

lemma getCol_setCol_self {df : DataFrame} {c : String} {vs : List Val}
    (hwf : df.WF) (hlen : vs.length = df.rows.length) :
    (df.setCol c vs).getCol c = vs := by
  rw [DataFrame.setCol]
  by_cases h : c ∈ df.cols
  · rw [if_pos h]
    simp only [DataFrame.getCol]
    exact zipWith_set_getD_self df.rows vs _
      (fun r hr => by rw [hwf r hr]; exact List.indexOf_lt_length.mpr h) hlen
  · rw [if_neg h]
    simp only [DataFrame.getCol]
    have hidx : (df.cols ++ [c]).indexOf c = df.cols.length := by
      rw [List.indexOf_append_of_not_mem h, List.indexOf_cons_self, Nat.add_zero]
    rw [hidx]
    exact zipWith_append_getD_at df.rows vs df.cols.length (fun r hr => hwf r hr) hlen

lemma getCol_setCol_ne {df : DataFrame} {c c2 : String} {vs : List Val}
    (hwf : df.WF) (hlen : vs.length = df.rows.length) (hne : c2 ≠ c) :
    (df.setCol c vs).getCol c2 = df.getCol c2 := by
  rw [DataFrame.setCol]
  by_cases h : c ∈ df.cols
  · rw [if_pos h]
    simp only [DataFrame.getCol]
    have hij : df.cols.indexOf c ≠ df.cols.indexOf c2 := by
      intro heq
      by_cases h2 : c2 ∈ df.cols
      · exact hne ((List.indexOf_inj h h2).mp heq).symm
      · have h1 := List.indexOf_lt_length.mpr h
        rw [heq, List.indexOf_eq_length.mpr h2] at h1
        exact lt_irrefl _ h1
    rw [zipWith_set_getD_ne df.rows vs _ _ hij, zipWith_fst_eq_map df.rows vs _ hlen]
  · rw [if_neg h]
    simp only [DataFrame.getCol]
    by_cases h2 : c2 ∈ df.cols
    · rw [List.indexOf_append_of_mem h2]
      rw [zipWith_append_getD_lt df.rows vs _ df.cols.length
        (List.indexOf_lt_length.mpr h2) (fun r hr => hwf r hr),
        zipWith_fst_eq_map df.rows vs _ hlen]
    · have hnm : c2 ∉ df.cols ++ [c] := by
        intro hmem
        rcases List.mem_append.mp hmem with h3 | h3
        · exact h2 h3
        · exact hne (List.mem_singleton.mp h3)
      rw [List.indexOf_eq_length.mpr hnm, List.length_append,
        List.length_singleton]
      rw [zipWith_append_getD_ge df.rows vs _ df.cols.length (le_refl _)
        (fun r hr => hwf r hr),
        zipWith_fst_eq_map df.rows vs _ hlen]
      apply List.map_congr_left
      intro r hr
      rw [List.indexOf_eq_length.mpr h2,
        List.getD_eq_default _ _ (le_of_eq (hwf r hr))]

end DataFrameLemmas

section FoldSlotsLemmas

/-- The column-adding loop shared by `split_delimited_to_columns` and
`split_column`: add the slot column for each index below the width. -/
def foldSlots (df0 : DataFrame) (names : Nat → String) (valsOf : Nat → List Val)
    (w : Nat) : DataFrame :=
  (List.range w).foldl (fun o i => o.setCol (names i) (valsOf i)) df0

lemma foldSlots_succ (df0 : DataFrame) (names : Nat → String)
    (valsOf : Nat → List Val) (w : Nat) :
    foldSlots df0 names valsOf (w + 1)
      = (foldSlots df0 names valsOf w).setCol (names w) (valsOf w) := by
  unfold foldSlots
  rw [List.range_succ, List.foldl_append]
  rfl

lemma foldSlots_spec (df0 : DataFrame) (names : Nat → String)
    (valsOf : Nat → List Val) (w : Nat)
    (hwf : df0.WF)
    (hlen : ∀ i, (valsOf i).length = df0.rows.length)
    (hnodup : (df0.cols ++ (List.range w).map names).Nodup) :
    (foldSlots df0 names valsOf w).cols = df0.cols ++ (List.range w).map names
    ∧ (foldSlots df0 names valsOf w).rows.length = df0.rows.length
    ∧ (foldSlots df0 names valsOf w).WF
    ∧ (∀ i < w, (foldSlots df0 names valsOf w).getCol (names i) = valsOf i)
    ∧ (∀ c, c ∉ (List.range w).map names →
        (foldSlots df0 names valsOf w).getCol c = df0.getCol c) := by
  induction w with
  | zero =>
    refine ⟨by simp [foldSlots], rfl, hwf, ?_, ?_⟩
    · intro i hi; exact absurd hi (Nat.not_lt_zero i)
    · intro c _; rfl
  | succ w ih =>
    have hsubnodup : (df0.cols ++ (List.range w).map names).Nodup := by
      apply List.Nodup.sublist _ hnodup
      apply List.Sublist.append_left
      exact List.Sublist.map names (List.range_sublist.mpr (Nat.le_succ w))
    obtain ⟨hcols, hrlen, hwfw, hget, hpres⟩ := ih hsubnodup
    have hmapsucc : (List.range (w + 1)).map names
        = (List.range w).map names ++ [names w] := by
      rw [List.range_succ, List.map_append]
      rfl
    have hnotmem : names w ∉ (foldSlots df0 names valsOf w).cols := by
      rw [hcols]
      intro hmem
      have : ¬ (df0.cols ++ (List.range (w + 1)).map names).Nodup := by
        rw [hmapsucc, ← List.append_assoc]
        intro hnd
        have hdisj := (List.nodup_append.mp hnd).2.2
        exact hdisj hmem (List.mem_singleton.mpr rfl)
      exact this hnodup
    have hlenw : (valsOf w).length = (foldSlots df0 names valsOf w).rows.length := by
      rw [hrlen]; exact hlen w
    have hnodupnames : names w ∉ (List.range w).map names := by
      have hnd2 := (List.nodup_append.mp hnodup).2.1
      rw [hmapsucc, List.nodup_append] at hnd2
      exact fun hm => hnd2.2.2 hm (List.mem_singleton.mpr rfl)
    refine ⟨?_, ?_, ?_, ?_, ?_⟩
    · rw [foldSlots_succ, setCol_cols_of_not_mem _ hnotmem, hcols, hmapsucc,
        List.append_assoc]
    · rw [foldSlots_succ, setCol_rows_length hlenw, hrlen]
    · rw [foldSlots_succ]
      exact WF_setCol hwfw hlenw
    · intro i hi
      rw [foldSlots_succ]
      rcases Nat.lt_succ_iff_lt_or_eq.mp hi with hlt | rfl
      · have hne : names i ≠ names w := by
          intro heq
          apply hnodupnames
          rw [← heq]
          exact List.mem_map.mpr ⟨i, List.mem_range.mpr hlt, rfl⟩
        rw [getCol_setCol_ne hwfw hlenw hne]
        exact hget i hlt
      · exact getCol_setCol_self hwfw hlenw
    · intro c hc
      rw [foldSlots_succ]
      have hcne : c ≠ names w := by
        intro heq
        apply hc
        rw [hmapsucc, heq]
        exact List.mem_append.mpr (Or.inr (List.mem_singleton.mpr rfl))
      rw [getCol_setCol_ne hwfw hlenw hcne]
      exact hpres c (fun hm => hc (by rw [hmapsucc]; exact List.mem_append.mpr (Or.inl hm)))

end FoldSlotsLemmas

section NormalizeLemmas

lemma normalizeCellVal_idem (d : Char) (v : Val) :
    normalizeCellVal d (normalizeCellVal d v) = normalizeCellVal d v := by
  unfold normalizeCellVal
  rw [cellTokens_joinWith d (cellTokens d v) (cellTokens_props d v)]

lemma zipWith_set_zipWith_set (i : Nat) :
    ∀ (rows : List (List Val)) (vs : List Val),
      List.zipWith (fun r v => r.set i v)
          (List.zipWith (fun r v => r.set i v) rows vs) vs
        = List.zipWith (fun r v => r.set i v) rows vs := by
  intro rows
  induction rows with
  | nil => intro vs; cases vs <;> rfl
  | cons r rs ih =>
    intro vs
    cases vs with
    | nil => rfl
    | cons v vv =>
      rw [List.zipWith_cons_cons, List.zipWith_cons_cons, List.set_set, ih]

lemma setCol_setCol_mem (df : DataFrame) (c : String) (vs : List Val)
    (hc : c ∈ df.cols) : (df.setCol c vs).setCol c vs = df.setCol c vs := by
  have h1 : (df.setCol c vs).cols = df.cols := setCol_cols_of_mem vs hc
  have h1r : (df.setCol c vs).rows
      = List.zipWith (fun r v => r.set (df.cols.indexOf c) v) df.rows vs := by
    rw [DataFrame.setCol, if_pos hc]
  conv_lhs => rw [DataFrame.setCol]
  rw [if_pos (show c ∈ (df.setCol c vs).cols from h1 ▸ hc)]
  rw [show (df.setCol c vs).cols = df.cols from h1, h1r, zipWith_set_zipWith_set]
  rw [DataFrame.setCol, if_pos hc]

section SplitLemmas

lemma split_delimited_eq_foldSlots (df : DataFrame) (column pfx : String)
    (d : Char) (max_parts : Option Nat) (hcol : column ∈ df.cols) :
    split_delimited_to_columns df column pfx d max_parts
      = foldSlots df (colName pfx)
          (fun i => ((df.getCol column).map (cellTokens d)).map (fun ts => slotVal ts i))
          (max_parts.getD (inferredWidth ((df.getCol column).map (cellTokens d)))) := by
  rw [split_delimited_to_columns, if_pos hcol]
  rfl

lemma getD_map_of_lt {α β : Type _} (f : α → β) (xs : List α) (j : Nat)
    (hj : j < xs.length) (d0 : α) (d1 : β) :
    (xs.map f).getD j d1 = f (xs.getD j d0) := by
  simp [List.getD_eq_getElem?_getD, List.getElem?_map, List.getElem?_eq_getElem hj]

lemma strTok_slotVal (ts : List (List Char)) (i : Nat) :
    strTok (slotVal ts i) = ts.get? i := by
  unfold strTok slotVal
  cases h : ts.get? i <;> rfl

lemma filterMap_range_get? (w : Nat) (ts : List (List Char)) :
    (List.range w).filterMap (fun i => ts.get? i) = ts.take w := by
  induction w with
  | zero => simp
  | succ w ih =>
    rw [List.range_succ, List.filterMap_append, ih, List.take_succ]
    congr 1
    rw [List.filterMap_cons, List.filterMap_nil, List.get?_eq_getElem?]
    cases h : ts[w]? <;> rfl

end SplitLemmas

/-- C5: for every table, column and delimiter, `split_delimited_to_columns`
uses a single width for the whole column — `max_parts` when given, otherwise
the maximum token count observed across all rows — and appends exactly that
many new columns named `pfx_i`, the cell of `pfx_i` being the i-th parsed
token of the row's cell, or missing when the row has fewer than i+1 tokens
(so tokens beyond the width are truncated and missing slots are null). The
side conditions say the table is well formed, the split column exists and the
generated slot names are fresh and mutually distinct. -/
theorem C5_split_to_columns (df : DataFrame) (column pfx : String) (d : Char)
    (max_parts : Option Nat)
    (hwf : df.WF) (hcol : column ∈ df.cols)
    (hnodup : (df.cols ++ (List.range (max_parts.getD
        (inferredWidth ((df.getCol column).map (cellTokens d))))).map
        (colName pfx)).Nodup) :
    (split_delimited_to_columns df column pfx d max_parts).cols
      = df.cols ++ (List.range (max_parts.getD
          (inferredWidth ((df.getCol column).map (cellTokens d))))).map (colName pfx)
    ∧ ∀ i < max_parts.getD (inferredWidth ((df.getCol column).map (cellTokens d))),
        (split_delimited_to_columns df column pfx d max_parts).getCol (colName pfx i)
          = ((df.getCol column).map (cellTokens d)).map (fun ts => slotVal ts i) := by
  rw [split_delimited_eq_foldSlots df column pfx d max_parts hcol]
  obtain ⟨h1, _, _, h4, _⟩ := foldSlots_spec df (colName pfx)
    (fun i => ((df.getCol column).map (cellTokens d)).map (fun ts => slotVal ts i))
    (max_parts.getD (inferredWidth ((df.getCol column).map (cellTokens d))))
    hwf (fun i => by simp [getCol_length]) hnodup
  exact ⟨h1, h4⟩

/-- C5 witness: a two-row table with item cells "A;B" and "" split into three
slots gains exactly the columns item_0, item_1, item_2, and item_1 holds the
second token of the first row and null for the second row. -/
theorem C5_split_to_columns_witness :
    (split_delimited_to_columns
        ⟨["id", "items"],
          [[Val.int 1, Val.str ('A' :: ';' :: ['B'])], [Val.int 2, Val.str []]]⟩
        "items" "item" ';' (some 3)).cols
      = ["id", "items", "item_0", "item_1", "item_2"]
    ∧ (split_delimited_to_columns
        ⟨["id", "items"],
          [[Val.int 1, Val.str ('A' :: ';' :: ['B'])], [Val.int 2, Val.str []]]⟩
        "items" "item" ';' (some 3)).getCol (colName "item" 1)
      = [Val.str ['B'], Val.na] := by
  have h := C5_split_to_columns
    ⟨["id", "items"],
      [[Val.int 1, Val.str ('A' :: ';' :: ['B'])], [Val.int 2, Val.str []]]⟩
    "items" "item" ';' (some 3) (by decide) (by decide) (by decide)
  exact ⟨h.1.trans (by decide), (h.2 1 (by decide)).trans (by decide)⟩

/-- C8: for a row whose cell parses to tokens t0,...,tn with n smaller than
the split width and no token containing the delimiter, collecting the
non-null slot values of `split_delimited_to_columns` in slot order yields
exactly t0,...,tn, and joining them with the delimiter gives a cell that
parses back to the same token sequence. -/
theorem C8_split_rejoin (df : DataFrame) (column pfx : String) (d : Char)
    (max_parts : Option Nat) (j : Nat)
    (hwf : df.WF) (hcol : column ∈ df.cols)
    (hnodup : (df.cols ++ (List.range (max_parts.getD
        (inferredWidth ((df.getCol column).map (cellTokens d))))).map
        (colName pfx)).Nodup)
    (hj : j < df.rows.length)
    (hlen : (cellTokens d ((df.getCol column).getD j Val.na)).length
        ≤ max_parts.getD (inferredWidth ((df.getCol column).map (cellTokens d))))
    (hnotok : ∀ t ∈ cellTokens d ((df.getCol column).getD j Val.na), d ∉ t) :
    (List.range (max_parts.getD
        (inferredWidth ((df.getCol column).map (cellTokens d))))).filterMap
      (fun i =>
        strTok (((split_delimited_to_columns df column pfx d max_parts).getCol
            (colName pfx i)).getD j Val.na))
      = cellTokens d ((df.getCol column).getD j Val.na)
    ∧ cellTokens d (Val.str (joinWith d
        (cellTokens d ((df.getCol column).getD j Val.na))))
      = cellTokens d ((df.getCol column).getD j Val.na) := by
  constructor
  · rw [split_delimited_eq_foldSlots df column pfx d max_parts hcol]
    obtain ⟨_, _, _, h4, _⟩ := foldSlots_spec df (colName pfx)
      (fun i => ((df.getCol column).map (cellTokens d)).map (fun ts => slotVal ts i))
      (max_parts.getD (inferredWidth ((df.getCol column).map (cellTokens d))))
      hwf (fun i => by simp [getCol_length]) hnodup
    have hjl : j < ((df.getCol column).map (cellTokens d)).length := by
      rw [List.length_map, getCol_length]; exact hj
    have hjc : j < (df.getCol column).length := by rw [getCol_length]; exact hj
    rw [List.filterMap_congr (g := fun i =>
        (cellTokens d ((df.getCol column).getD j Val.na)).get? i) ?_]
    · rw [filterMap_range_get?]
      exact List.take_of_length_le hlen
    · intro i hi
      rw [h4 i (List.mem_range.mp hi),
        getD_map_of_lt (fun ts => slotVal ts i) _ j hjl [] Val.na,
        getD_map_of_lt (cellTokens d) _ j hjc Val.na [],
        strTok_slotVal]
  · exact cellTokens_joinWith d _ (cellTokens_props d _)

/-- C8 witness: the single cell "A;B" split with width 3 has non-null slots
exactly ["A", "B"], and joining them with the delimiter parses back to the
same tokens. -/
theorem C8_split_rejoin_witness :
    (List.range 3).filterMap
      (fun i =>
        strTok (((split_delimited_to_columns ⟨["items"], [[Val.str ('A' :: ';' :: ['B'])]]⟩
            "items" "it" ';' (some 3)).getCol (colName "it" i)).getD 0 Val.na))
      = [['A'], ['B']]
    ∧ cellTokens ';' (Val.str (joinWith ';' [['A'], ['B']])) = [['A'], ['B']] := by
  have h := C8_split_rejoin ⟨["items"], [[Val.str ('A' :: ';' :: ['B'])]]⟩
    "items" "it" ';' (some 3) 0 (by decide) (by decide) (by decide) (by decide)
    (by decide) (by decide)
  refine ⟨h.1.trans (by decide), ?_⟩
  have h2 := h.2
  rw [show cellTokens ';' ((DataFrame.getCol ⟨["items"], [[Val.str ('A' :: ';' :: ['B'])]]⟩
      "items").getD 0 Val.na) = [['A'], ['B']] from by decide] at h2
  exact h2

section ExplodeLemmas

lemma getD_set_self (r : List Val) (i : Nat) (v : Val) (hi : i < r.length) :
    (r.set i v).getD i Val.na = v := by
  rw [List.getD_eq_getElem?_getD, List.getElem?_set_self hi]
  rfl

lemma explode_eq (df : DataFrame) (column : String) (d : Char) (vn : String)
    (hvn : vn ≠ "") :
    explode_delimited_column df column d (some vn) =
      ⟨df.cols.map (fun c => if c = column then vn else c),
       (df.rows.flatMap (fun r =>
         match cellTokens d (r.getD (df.cols.indexOf column) Val.na) with
         | [] => [r.set (df.cols.indexOf column) Val.na]
         | ts => ts.map (fun t => r.set (df.cols.indexOf column) (Val.str t)))).filter
         (fun r => decide (r.getD (df.cols.indexOf column) Val.na ≠ Val.na))⟩ := by
  simp only [explode_delimited_column, if_neg hvn]

lemma explode_row_contribution (d : Char) (i : Nat) (r : List Val)
    (hi : i < r.length) :
    ((match cellTokens d (r.getD i Val.na) with
      | [] => [r.set i Val.na]
      | ts => ts.map (fun t => r.set i (Val.str t))).filter
        (fun x : List Val => decide (x.getD i Val.na ≠ Val.na))).length
      = (cellTokens d (r.getD i Val.na)).length := by
  cases hts : cellTokens d (r.getD i Val.na) with
  | nil =>
    rw [List.filter_eq_nil_iff.mpr ?_]
    · rfl
    · intro a ha
      rw [List.mem_singleton] at ha
      subst ha
      rw [getD_set_self r i Val.na hi]
      simp
  | cons t ts =>
    rw [List.filter_eq_self.mpr ?_]
    · rw [List.length_map]
    · intro a ha
      obtain ⟨u, hu, rfl⟩ := List.mem_map.mp ha
      rw [getD_set_self r i (Val.str u) hi]
      simp

end ExplodeLemmas

/-- C7: the output row count of `explode_delimited_column` equals the sum
over input rows of each row's non-empty parsed token count (rows with zero
tokens contribute nothing), and the exploded column appears under the
requested (nonempty) value name in the output header. -/
theorem C7_explode_row_count (df : DataFrame) (column : String) (d : Char)
    (vn : String) (hwf : df.WF) (hcol : column ∈ df.cols) (hvn : vn ≠ "") :
    (explode_delimited_column df column d (some vn)).rows.length
      = ((df.getCol column).map (fun v => (cellTokens d v).length)).sum
    ∧ (explode_delimited_column df column d (some vn)).cols
      = df.cols.map (fun c => if c = column then vn else c)
    ∧ vn ∈ (explode_delimited_column df column d (some vn)).cols := by
  have hilt : df.cols.indexOf column < df.cols.length := List.indexOf_lt_length.mpr hcol
  rw [explode_eq df column d vn hvn]
  refine ⟨?_, rfl, ?_⟩
  · rw [List.filter_flatMap, List.length_flatMap]
    rw [show df.getCol column
        = df.rows.map (fun r => r.getD (df.cols.indexOf column) Val.na) from rfl,
      List.map_map]
    apply congrArg
    apply List.map_congr_left
    intro r hr
    have hi : df.cols.indexOf column < r.length := by
      rw [hwf r hr]; exact hilt
    simp only [Function.comp_apply]
    exact explode_row_contribution d (df.cols.indexOf column) r hi
  · show vn ∈ df.cols.map (fun c => if c = column then vn else c)
    refine List.mem_map.mpr ⟨column, hcol, ?_⟩
    rw [if_pos rfl]

/-- C7 witness: a two-row table whose cells parse to two tokens and zero
tokens explodes to exactly two rows, under the column name "token". -/
theorem C7_explode_row_count_witness :
    (explode_delimited_column
        ⟨["id", "items"],
          [[Val.int 1, Val.str ('A' :: ';' :: ['B'])], [Val.int 2, Val.str [';']]]⟩
        "items" ';' (some "token")).rows.length = 2
    ∧ (explode_delimited_column
        ⟨["id", "items"],
          [[Val.int 1, Val.str ('A' :: ';' :: ['B'])], [Val.int 2, Val.str [';']]]⟩
        "items" ';' (some "token")).cols = ["id", "token"] := by
  have h := C7_explode_row_count
    ⟨["id", "items"],
      [[Val.int 1, Val.str ('A' :: ';' :: ['B'])], [Val.int 2, Val.str [';']]]⟩
    "items" ';' "token" (by decide) (by decide) (by decide)
  exact ⟨h.1.trans (by decide), h.2.1.trans (by decide)⟩

section ValidatorLemmas

lemma participantMismatches_eq_nil_iff (df : DataFrame) (e : Nat) :
    participantMismatches df e = [] ↔ ∀ m ∈ groupKeys df, nuniquePuuids df m = e := by
  unfold participantMismatches
  rw [List.filterMap_eq_nil_iff]
  constructor
  · intro h m hm
    have h2 := h m hm
    by_contra hne
    rw [if_neg hne] at h2
    cases h2
  · intro h m hm
    rw [if_pos (h m hm)]

end ValidatorLemmas

/-- C3: `validate_participant_counts` returns an empty mapping exactly when
every match key has the expected number of distinct puuids; with strict mode
on and a non-empty mismatch mapping, the call fails carrying the full
mismatch mapping. -/
theorem C3_validator (df : DataFrame) (e : Nat) (strict : Bool) :
    (validate_participant_counts df e strict = .ok []
      ↔ ∀ m ∈ groupKeys df, nuniquePuuids df m = e)
    ∧ (strict = true → participantMismatches df e ≠ [] →
        validate_participant_counts df e strict
          = .error (participantMismatches df e)) := by
  constructor
  · unfold validate_participant_counts
    by_cases hb : participantMismatches df e = []
    · rw [if_pos hb]
      constructor
      · intro _
        exact (participantMismatches_eq_nil_iff df e).mp hb
      · intro _
        rfl
    · rw [if_neg hb]
      constructor
      · intro hok
        cases hs : strict with
        | true => rw [hs] at hok; cases hok
        | false =>
          rw [hs] at hok
          rw [if_neg (show ¬ (false = true) by simp)] at hok
          exact absurd (Except.ok.inj hok) hb
      · intro hall
        exact absurd ((participantMismatches_eq_nil_iff df e).mpr hall) hb
  · intro hs hne
    unfold validate_participant_counts
    rw [if_neg hne, hs, if_pos rfl]

/-- C3 witness: a table where match "m" has one distinct puuid fails strict
validation against an expected count of 2, carrying the mismatch mapping. -/
theorem C3_validator_witness :
    validate_participant_counts
        ⟨["match_id", "puuid"], [[Val.str ['m'], Val.str ['p']]]⟩ 2 true
      = .error [(Val.str ['m'], 1)] := by
  have h := (C3_validator ⟨["match_id", "puuid"], [[Val.str ['m'], Val.str ['p']]]⟩
    2 true).2 rfl (by decide)
  exact h.trans (by decide)

section ParseLemmas

lemma split_zero_tokens (d : Char) (s : List Char)
    (h : ∀ c ∈ s, isPySpace c = true ∨ c = d) :
    _split d true (Val.str s) = [] := by
  cases s with
  | nil => rfl
  | cons a as =>
    show ((((splitOnChar d (a :: as)).map pyStrip).filter
        (fun t => decide (t ≠ []))).map Val.str) = []
    rw [List.filter_eq_nil_iff.mpr ?_]
    · rfl
    · intro t ht
      obtain ⟨u, hu, rfl⟩ := List.mem_map.mp ht
      have hstrip : pyStrip u = [] := by
        apply pyStrip_eq_nil
        intro c hc
        rcases h c (mem_splitOnChar_mem d (a :: as) u hu c hc) with hsp | hcd
        · exact hsp
        · exact absurd (hcd ▸ hc) (not_mem_of_mem_splitOnChar d (a :: as) u hu)
      rw [hstrip]
      simp

end ParseLemmas

/-- C6: case analysis of `parse_delimited_column` on one cell: missing or
empty-string input yields an empty list when `drop_empty` and the one-element
list holding the original value otherwise; a non-empty string is split on the
delimiter with each token stripped of surrounding whitespace and empty tokens
dropped exactly when `drop_empty`; the series-level function applies this to
every cell; and a cell of only whitespace and delimiter characters parses to
zero tokens. -/
theorem C6_parse_cases (d : Char) :
    _split d true Val.na = []
    ∧ _split d false Val.na = [Val.na]
    ∧ _split d true (Val.str []) = []
    ∧ _split d false (Val.str []) = [Val.str []]
    ∧ (∀ (a : Char) (s : List Char),
        _split d true (Val.str (a :: s))
          = (((splitOnChar d (a :: s)).map pyStrip).filter
              (fun t => decide (t ≠ []))).map Val.str)
    ∧ (∀ (a : Char) (s : List Char),
        _split d false (Val.str (a :: s))
          = ((splitOnChar d (a :: s)).map pyStrip).map Val.str)
    ∧ (∀ (series : List Val) (drop_empty : Bool),
        parse_delimited_column series d drop_empty = series.map (_split d drop_empty))
    ∧ (∀ s : List Char, (∀ c ∈ s, isPySpace c = true ∨ c = d) →
        _split d true (Val.str s) = []) := by
  refine ⟨rfl, rfl, rfl, rfl, fun a s => rfl, fun a s => rfl, fun series de => rfl, ?_⟩
  exact split_zero_tokens d

/-- C6 witness: the cell " ; ; " made only of whitespace and delimiters
parses to zero tokens. -/
theorem C6_parse_cases_witness :
    _split ';' true (Val.str [' ', ';', ' ', ';', ' ']) = [] :=
  (C6_parse_cases ';').2.2.2.2.2.2.2 [' ', ';', ' ', ';', ' '] (by decide)

section BuildLemmas

lemma resolve_error_of_mem (fs : FS) (base : List String) (label : String)
    (h : (base ++ [label]) ∈ fs) :
    resolve_processed_output_dir fs base label = .error (base ++ [label]) := by
  unfold resolve_processed_output_dir
  rw [if_pos h]

lemma resolve_ok_of_not_mem (fs : FS) (base : List String) (label : String)
    (h : (base ++ [label]) ∉ fs) :
    resolve_processed_output_dir fs base label
      = .ok (mkdirAll fs (base ++ [label]), base ++ [label]) := by
  unfold resolve_processed_output_dir
  rw [if_neg h]

lemma ensure_columns_error {df : DataFrame} {req : List String} (label : String)
    (h : missingCols df req ≠ []) :
    ensure_columns df req label = .error (label, missingCols df req) := by
  unfold ensure_columns
  rw [if_neg h]

lemma ensure_columns_ok {df : DataFrame} {req : List String} (label : String)
    (h : missingCols df req = []) :
    ensure_columns df req label = .ok () := by
  unfold ensure_columns
  rw [if_pos h]

lemma missingCols_eq_nil_iff (df : DataFrame) (req : List String) :
    missingCols df req = [] ↔ ∀ c ∈ req, c ∈ df.cols := by
  unfold missingCols
  rw [List.filter_eq_nil_iff]
  simp

lemma build_dirExists (fs : FS) (base : List String) (label : String)
    (inp : RawInput) (d : Char) (h : (base ++ [label]) ∈ mkdirAll fs base) :
    build_canonical_tables fs base label inp d
      = ([Event.mkdirBase], .error (BuildErr.dirExists (base ++ [label]))) := by
  simp only [build_canonical_tables, resolve_error_of_mem (mkdirAll fs base) base label h]

end BuildLemmas

/-- C4: `resolve_processed_output_dir` fails with a directory-already-exists
condition exactly when `base_dir/label` already exists, and otherwise creates
that directory together with every missing parent and returns its path;
inside `build_canonical_tables` this failure is raised before any of the
three raw tables is read. -/
theorem C4_output_dir_allocator (fs : FS) (base : List String) (label : String) :
    ((base ++ [label]) ∈ fs →
      resolve_processed_output_dir fs base label = .error (base ++ [label]))
    ∧ ((base ++ [label]) ∉ fs →
      resolve_processed_output_dir fs base label
          = .ok (mkdirAll fs (base ++ [label]), base ++ [label])
        ∧ ∀ k < (base ++ [label]).length,
            (base ++ [label]).take (k + 1) ∈ mkdirAll fs (base ++ [label]))
    ∧ ∀ (inp : RawInput) (d : Char), (base ++ [label]) ∈ fs →
        (build_canonical_tables fs base label inp d).2
          = .error (BuildErr.dirExists (base ++ [label]))
        ∧ ∀ s, Event.readTable s ∉ (build_canonical_tables fs base label inp d).1 := by
  refine ⟨resolve_error_of_mem fs base label, ?_, ?_⟩
  · intro h
    refine ⟨resolve_ok_of_not_mem fs base label h, ?_⟩
    intro k hk
    unfold mkdirAll parentsOf
    refine List.mem_append.mpr (Or.inr ?_)
    exact List.mem_map.mpr ⟨k, List.mem_range.mpr hk, rfl⟩
  · intro inp d h
    have hm : (base ++ [label]) ∈ mkdirAll fs base :=
      List.mem_append.mpr (Or.inl h)
    rw [build_dirExists fs base label inp d hm]
    refine ⟨rfl, ?_⟩
    intro s hmem
    simp at hmem

/-- C4 witness: with the labeled directory already present the allocator and
the build both fail with the directory-exists condition, no table is read,
and on a fresh filesystem the allocator creates the directory and its
parent. -/
theorem C4_output_dir_allocator_witness :
    resolve_processed_output_dir [["d", "lab"]] ["d"] "lab" = .error ["d", "lab"]
    ∧ (build_canonical_tables [["d", "lab"]] ["d"] "lab"
        ⟨⟨[], []⟩, ⟨[], []⟩, ⟨[], []⟩⟩ ';').2
      = .error (BuildErr.dirExists ["d", "lab"])
    ∧ Event.readTable "participants"
        ∉ (build_canonical_tables [["d", "lab"]] ["d"] "lab"
            ⟨⟨[], []⟩, ⟨[], []⟩, ⟨[], []⟩⟩ ';').1
    ∧ resolve_processed_output_dir [] ["d"] "lab"
      = .ok ([["d"], ["d", "lab"]], ["d", "lab"]) := by
  have h1 := C4_output_dir_allocator [["d", "lab"]] ["d"] "lab"
  have h2 := C4_output_dir_allocator [] ["d"] "lab"
  have hb := h1.2.2 ⟨⟨[], []⟩, ⟨[], []⟩, ⟨[], []⟩⟩ ';' (by decide)
  exact ⟨h1.1 (by decide), hb.1, hb.2 "participants",
    (h2.2.1 (by decide)).1.trans (by decide)⟩

/-- C1 counterexample: with the participants table missing `level` and the
units table missing four of its required columns, the build failure names
only the missing columns of the participants table; the missing columns of
the units table are absent from the failure, so the failure does not name
every missing column across all three tables. -/
theorem C1_counterexample :
    (build_canonical_tables [] ["data"] "lab"
        ⟨⟨["match_id", "puuid", "placement"], []⟩, ⟨["match_id"], []⟩,
          ⟨["match_id"], []⟩⟩ ';').2
      = .error (BuildErr.missingColumns "participants" ["level"])
    ∧ missingCols ⟨["match_id"], []⟩ reqUnits
        = ["puuid", "unit_id", "star_level", "items"] :=
  ⟨by decide, by decide⟩

/-- C1 (amended): when required columns are missing, the build fails before
any table is written, and the failure names every missing column of the
first table, in the order participants, units, traits, that has a missing
column — not the missing columns of the remaining tables. -/
theorem C1_missing_columns_first_table (fs : FS) (base : List String)
    (label : String) (inp : RawInput) (d : Char)
    (halloc : (base ++ [label]) ∉ mkdirAll fs base) :
    (missingCols inp.participants reqParticipants ≠ [] →
      (build_canonical_tables fs base label inp d).2
        = .error (BuildErr.missingColumns "participants"
            (missingCols inp.participants reqParticipants))
      ∧ ∀ s, Event.writeTable s ∉ (build_canonical_tables fs base label inp d).1)
    ∧ (missingCols inp.participants reqParticipants = [] →
       missingCols inp.units reqUnits ≠ [] →
      (build_canonical_tables fs base label inp d).2
        = .error (BuildErr.missingColumns "units" (missingCols inp.units reqUnits))
      ∧ ∀ s, Event.writeTable s ∉ (build_canonical_tables fs base label inp d).1)
    ∧ (missingCols inp.participants reqParticipants = [] →
       missingCols inp.units reqUnits = [] →
       missingCols inp.traits reqTraits ≠ [] →
      (build_canonical_tables fs base label inp d).2
        = .error (BuildErr.missingColumns "traits" (missingCols inp.traits reqTraits))
      ∧ ∀ s, Event.writeTable s ∉ (build_canonical_tables fs base label inp d).1) := by
  refine ⟨?_, ?_, ?_⟩
  · intro hp
    have heq : build_canonical_tables fs base label inp d
        = ([Event.mkdirBase, Event.allocOut, Event.readTable "participants",
            Event.readTable "units", Event.readTable "traits"],
           .error (BuildErr.missingColumns "participants"
             (missingCols inp.participants reqParticipants))) := by
      simp only [build_canonical_tables,
        resolve_ok_of_not_mem (mkdirAll fs base) base label halloc,
        ensure_columns_error "participants" hp]
      rfl
    rw [heq]
    exact ⟨rfl, fun s hmem => by simp at hmem⟩
  · intro hp hu
    have heq : build_canonical_tables fs base label inp d
        = ([Event.mkdirBase, Event.allocOut, Event.readTable "participants",
            Event.readTable "units", Event.readTable "traits"],
           .error (BuildErr.missingColumns "units"
             (missingCols inp.units reqUnits))) := by
      simp only [build_canonical_tables,
        resolve_ok_of_not_mem (mkdirAll fs base) base label halloc,
        ensure_columns_ok "participants" hp,
        ensure_columns_error "units" hu]
      rfl
    rw [heq]
    exact ⟨rfl, fun s hmem => by simp at hmem⟩
  · intro hp hu ht
    have heq : build_canonical_tables fs base label inp d
        = ([Event.mkdirBase, Event.allocOut, Event.readTable "participants",
            Event.readTable "units", Event.readTable "traits"],
           .error (BuildErr.missingColumns "traits"
             (missingCols inp.traits reqTraits))) := by
      simp only [build_canonical_tables,
        resolve_ok_of_not_mem (mkdirAll fs base) base label halloc,
        ensure_columns_ok "participants" hp,
        ensure_columns_ok "units" hu,
        ensure_columns_error "traits" ht]
      rfl
    rw [heq]
    exact ⟨rfl, fun s hmem => by simp at hmem⟩

/-- C1 witness: with participants complete and units missing `items`, the
build fails naming exactly the units table's missing columns and writes no
table. -/
theorem C1_missing_columns_first_table_witness :
    (build_canonical_tables [] ["data"] "lab"
        ⟨⟨["match_id", "puuid", "placement", "level"], []⟩,
          ⟨["match_id", "puuid", "unit_id", "star_level"], []⟩,
          ⟨["match_id", "puuid", "trait_id", "tier_current"], []⟩⟩ ';').2
      = .error (BuildErr.missingColumns "units" ["items"])
    ∧ Event.writeTable "units"
        ∉ (build_canonical_tables [] ["data"] "lab"
            ⟨⟨["match_id", "puuid", "placement", "level"], []⟩,
              ⟨["match_id", "puuid", "unit_id", "star_level"], []⟩,
              ⟨["match_id", "puuid", "trait_id", "tier_current"], []⟩⟩ ';').1 := by
  have h := (C1_missing_columns_first_table [] ["data"] "lab"
    ⟨⟨["match_id", "puuid", "placement", "level"], []⟩,
      ⟨["match_id", "puuid", "unit_id", "star_level"], []⟩,
      ⟨["match_id", "puuid", "trait_id", "tier_current"], []⟩⟩ ';'
    (by decide)).2.1 (by decide) (by decide)
  exact ⟨h.1.trans (by decide), h.2 "units"⟩

/-- C9: whenever the build succeeds, the written traits table consists of
exactly the input trait rows whose `tier_current` is strictly positive, in
input order and otherwise unaltered; rows with `tier_current ≤ 0` (and only
those) are dropped. -/
theorem C9_traits_filter (fs : FS) (base : List String) (label : String)
    (inp : RawInput) (d : Char)
    (halloc : (base ++ [label]) ∉ mkdirAll fs base)
    (hp : missingCols inp.participants reqParticipants = [])
    (hu : missingCols inp.units reqUnits = [])
    (ht : missingCols inp.traits reqTraits = []) :
    ∃ o : BuildOutput, (build_canonical_tables fs base label inp d).2 = .ok o
      ∧ o.traitsOut = inp.traits.filterRows
          (fun r => valGtZero (r.getD (inp.traits.cols.indexOf "tier_current") Val.na)) := by
  have hplace : missingCols inp.participants ["placement"] = [] := by
    rw [missingCols_eq_nil_iff]
    intro c hc
    rw [List.mem_singleton] at hc
    subst hc
    exact (missingCols_eq_nil_iff inp.participants reqParticipants).mp hp
      "placement" (by decide)
  have haddf : add_participant_flags inp.participants 4
      = .ok (inp.participants.setCol "is_win"
          ((inp.participants.getCol "placement").map
            (fun v => Val.bool (valLe v 4)))) := by
    unfold add_participant_flags
    rw [if_pos hplace]
  simp only [build_canonical_tables,
    resolve_ok_of_not_mem (mkdirAll fs base) base label halloc,
    ensure_columns_ok "participants" hp,
    ensure_columns_ok "units" hu,
    ensure_columns_ok "traits" ht, haddf]
  exact ⟨_, rfl, rfl⟩

/-- C9 witness: a build over a traits table with tiers 0, 1 and 2 succeeds
and writes only the rows with tiers 1 and 2. -/
theorem C9_traits_filter_witness :
    ∃ o : BuildOutput,
      (build_canonical_tables [] ["data"] "lab"
          ⟨⟨["match_id", "puuid", "placement", "level"], []⟩,
            ⟨["match_id", "puuid", "unit_id", "star_level", "items"], []⟩,
            ⟨["match_id", "puuid", "trait_id", "tier_current"],
              [[Val.str ['m'], Val.str ['p'], Val.str ['a'], Val.int 0],
               [Val.str ['m'], Val.str ['p'], Val.str ['b'], Val.int 1],
               [Val.str ['m'], Val.str ['p'], Val.str ['c'], Val.int 2]]⟩⟩ ';').2
        = .ok o
      ∧ o.traitsOut.rows
        = [[Val.str ['m'], Val.str ['p'], Val.str ['b'], Val.int 1],
           [Val.str ['m'], Val.str ['p'], Val.str ['c'], Val.int 2]] := by
  obtain ⟨o, ho, htr⟩ := C9_traits_filter [] ["data"] "lab"
    ⟨⟨["match_id", "puuid", "placement", "level"], []⟩,
      ⟨["match_id", "puuid", "unit_id", "star_level", "items"], []⟩,
      ⟨["match_id", "puuid", "trait_id", "tier_current"],
        [[Val.str ['m'], Val.str ['p'], Val.str ['a'], Val.int 0],
         [Val.str ['m'], Val.str ['p'], Val.str ['b'], Val.int 1],
         [Val.str ['m'], Val.str ['p'], Val.str ['c'], Val.int 2]]⟩⟩ ';'
    (by decide) (by decide) (by decide) (by decide)
  refine ⟨o, ho, ?_⟩
  rw [htr]
  decide

end NormalizeLemmas

/-- C2: normalizing a delimited cell is idempotent: per cell, normalizing a
normalized value returns it unchanged, and applying
`normalize_delimited_column` to a table twice yields the same table as
applying it once. -/
theorem C2_normalize_idempotent :
    (∀ (d : Char) (v : Val),
      normalizeCellVal d (normalizeCellVal d v) = normalizeCellVal d v)
    ∧ ∀ (df : DataFrame) (column : String) (d : Char), df.WF →
        normalize_delimited_column (normalize_delimited_column df column d) column d
          = normalize_delimited_column df column d := by
  refine ⟨normalizeCellVal_idem, ?_⟩
  intro df column d hwf
  by_cases hcol : column ∈ df.cols
  · unfold normalize_delimited_column
    rw [if_pos hcol]
    have hlen : ((df.getCol column).map (normalizeCellVal d)).length
        = df.rows.length := by
      rw [List.length_map, getCol_length]
    rw [if_pos (show column
        ∈ (df.setCol column ((df.getCol column).map (normalizeCellVal d))).cols from
        (setCol_cols_of_mem _ hcol) ▸ hcol)]
    rw [getCol_setCol_self hwf hlen]
    rw [show ((df.getCol column).map (normalizeCellVal d)).map (normalizeCellVal d)
        = (df.getCol column).map (normalizeCellVal d) from by
      rw [List.map_map]
      apply List.map_congr_left
      intro v _
      exact normalizeCellVal_idem d v]
    exact setCol_setCol_mem df column _ hcol
  · unfold normalize_delimited_column
    rw [if_neg hcol, if_neg hcol]

/-- C2 witness: normalizing the cell "  x ;; y" twice equals normalizing it
once, both per cell and through the table-level operation. -/
theorem C2_normalize_idempotent_witness :
    normalizeCellVal ';' (normalizeCellVal ';' (Val.str [' ', 'x', ';', ';', 'y']))
      = normalizeCellVal ';' (Val.str [' ', 'x', ';', ';', 'y'])
    ∧ normalize_delimited_column
        (normalize_delimited_column
          ⟨["items"], [[Val.str [' ', 'x', ';', ';', 'y']]]⟩ "items" ';')
        "items" ';'
      = normalize_delimited_column
          ⟨["items"], [[Val.str [' ', 'x', ';', ';', 'y']]]⟩ "items" ';' :=
  ⟨C2_normalize_idempotent.1 ';' (Val.str [' ', 'x', ';', ';', 'y']),
   C2_normalize_idempotent.2 ⟨["items"], [[Val.str [' ', 'x', ';', ';', 'y']]]⟩
     "items" ';' (by decide)⟩

section RefinementLemmas

lemma filterMap_strip_eq_filter (g : List Char → List Char) :
    ∀ xs : List (List Char),
      xs.filterMap (fun p => if g p = [] then none else some (g p))
        = (xs.map g).filter (fun t => decide (t ≠ [])) := by
  intro xs
  induction xs with
  | nil => rfl
  | cons a as ih =>
    by_cases h : g a = []
    · simp [List.filterMap_cons, List.filter_cons, h, ih]
    · simp [List.filterMap_cons, List.filter_cons, h, ih]

lemma scParts_eq_cellTokens (d : Char) (v : Val) : scParts d v = cellTokens d v := by
  cases v with
  | na => rfl
  | str s =>
    cases s with
    | nil => rfl
    | cons a as =>
      rw [cellTokens_str_cons]
      show (splitOnChar d (Val.pyStr (Val.str (a :: as)))).filterMap
          (fun p => if pyStrip p = [] then none else some (pyStrip p))
        = ((splitOnChar d (a :: as)).map pyStrip).filter (fun t => decide (t ≠ []))
      exact filterMap_strip_eq_filter pyStrip (splitOnChar d (a :: as))
  | int n =>
    rw [cellTokens_int]
    exact filterMap_strip_eq_filter pyStrip (splitOnChar d (Val.pyStr (Val.int n)))
  | bool b =>
    rw [cellTokens_bool]
    exact filterMap_strip_eq_filter pyStrip (splitOnChar d (Val.pyStr (Val.bool b)))

lemma scInferredWidth_eq (l : List (List (List Char))) :
    scInferredWidth l = inferredWidth l := by
  cases l with
  | nil => rfl
  | cons a as =>
    unfold scInferredWidth inferredWidth
    rw [if_neg (by simp)]
    rw [List.foldl_map]

lemma getCol_selectCols (df : DataFrame) (names : List String) (c : String)
    (hc : c ∈ names) : (df.selectCols names).getCol c = df.getCol c := by
  unfold DataFrame.selectCols DataFrame.getCol
  rw [List.map_map]
  apply List.map_congr_left
  intro r _
  have hlt : names.indexOf c < names.length := List.indexOf_lt_length.mpr hc
  show ((names.map fun n => r.getD (df.cols.indexOf n) Val.na).getD
      (names.indexOf c) Val.na) = r.getD (df.cols.indexOf c) Val.na
  rw [getD_map_of_lt (fun n => r.getD (df.cols.indexOf n) Val.na) names _ hlt c Val.na]
  have hself : names.getD (names.indexOf c) c = c := by
    rw [List.getD_eq_getElem?_getD, List.getElem?_eq_getElem hlt]
    simp [List.getElem_indexOf]
  rw [hself]

lemma getD_eraseIdx_indexOf :
    ∀ (cols : List String) (column c2 : String) (r : List Val),
      c2 ∈ cols → c2 ≠ column →
      (r.eraseIdx (cols.indexOf column)).getD
          ((cols.eraseIdx (cols.indexOf column)).indexOf c2) Val.na
        = r.getD (cols.indexOf c2) Val.na := by
  intro cols
  induction cols with
  | nil => intro column c2 r hc2 _; cases hc2
  | cons c0 rest ih =>
    intro column c2 r hc2 hne
    by_cases h0 : c0 = column
    · subst h0
      rw [List.indexOf_cons_self]
      rw [List.indexOf_cons_ne rest (Ne.symm hne)]
      show (r.eraseIdx 0).getD (rest.indexOf c2) Val.na
        = r.getD (rest.indexOf c2).succ Val.na
      cases r with
      | nil => rfl
      | cons v vr => rfl
    · rw [List.indexOf_cons_ne rest (fun h => h0 h)]
      by_cases hc0 : c2 = c0
      · subst hc0
        rw [List.indexOf_cons_self]
        rw [show List.eraseIdx (c2 :: rest) (List.indexOf column rest).succ
            = c2 :: rest.eraseIdx (List.indexOf column rest) from rfl]
        rw [List.indexOf_cons_self]
        cases r with
        | nil => rfl
        | cons v vr => rfl
      · have hrest : c2 ∈ rest := by
          rcases List.mem_cons.mp hc2 with h | h
          · exact absurd h hc0
          · exact h
        rw [List.indexOf_cons_ne rest (fun h => hc0 h.symm)]
        rw [show List.eraseIdx (c0 :: rest) (List.indexOf column rest).succ
            = c0 :: rest.eraseIdx (List.indexOf column rest) from rfl]
        rw [List.indexOf_cons_ne _ (fun h => hc0 h.symm)]
        cases r with
        | nil => rfl
        | cons v vr =>
          show (vr.eraseIdx (List.indexOf column rest)).getD
              ((rest.eraseIdx (List.indexOf column rest)).indexOf c2) Val.na
            = vr.getD (rest.indexOf c2) Val.na
          exact ih column c2 vr hrest hne

lemma getCol_dropCol (df : DataFrame) (column c2 : String)
    (hc2 : c2 ∈ df.cols) (hne : c2 ≠ column) :
    (df.dropCol column).getCol c2 = df.getCol c2 := by
  unfold DataFrame.dropCol DataFrame.getCol
  rw [List.map_map]
  apply List.map_congr_left
  intro r _
  show (r.eraseIdx (df.cols.indexOf column)).getD
      ((df.cols.eraseIdx (df.cols.indexOf column)).indexOf c2) Val.na
    = r.getD (df.cols.indexOf c2) Val.na
  exact getD_eraseIdx_indexOf df.cols column c2 r hc2 hne

lemma split_column_eq (df : DataFrame) (column pfx : String) (d : Char)
    (max_parts : Option Nat) (drop_original : Bool) (hcol : column ∈ df.cols) :
    split_column df column pfx d max_parts drop_original
      = (if drop_original then
          (foldSlots df (colName pfx)
            (fun i => ((df.getCol column).map (scParts d)).map (fun ps => slotVal ps i))
            (max_parts.getD (scInferredWidth ((df.getCol column).map (scParts d))))).dropCol
            column
        else
          foldSlots df (colName pfx)
            (fun i => ((df.getCol column).map (scParts d)).map (fun ps => slotVal ps i))
            (max_parts.getD (scInferredWidth ((df.getCol column).map (scParts d))))).selectCols
        (df.cols.flatMap (fun c =>
          if c = column then
            (if drop_original then [] else [c])
              ++ (List.range (max_parts.getD
                  (scInferredWidth ((df.getCol column).map (scParts d))))).map (colName pfx)
          else [c])) := by
  rw [split_column, if_pos hcol]
  rfl

end RefinementLemmas

/-- C10: `split_column` in split_columns.py and `split_delimited_to_columns`
in data_processing.py compute identical values for every produced column
`pfx_i`: both derive the same per-row token lists (empty for missing or
empty cells, whitespace-trimmed, empty tokens dropped), the same column
width, and the same slot values, for either setting of `drop_original`. The
side conditions say the table is well formed, the split column exists and
the generated slot names are fresh and mutually distinct. -/
theorem C10_split_refinement (df : DataFrame) (column pfx : String) (d : Char)
    (max_parts : Option Nat) (drop_original : Bool)
    (hwf : df.WF) (hcol : column ∈ df.cols)
    (hnodup : (df.cols ++ (List.range (max_parts.getD
        (inferredWidth ((df.getCol column).map (cellTokens d))))).map
        (colName pfx)).Nodup) :
    (∀ v : Val, scParts d v = cellTokens d v)
    ∧ max_parts.getD (scInferredWidth ((df.getCol column).map (scParts d)))
      = max_parts.getD (inferredWidth ((df.getCol column).map (cellTokens d)))
    ∧ ∀ i < max_parts.getD (inferredWidth ((df.getCol column).map (cellTokens d))),
        (split_column df column pfx d max_parts drop_original).getCol (colName pfx i)
          = (split_delimited_to_columns df column pfx d max_parts).getCol
              (colName pfx i) := by
  have htok : (df.getCol column).map (scParts d)
      = (df.getCol column).map (cellTokens d) :=
    List.map_congr_left (fun v _ => scParts_eq_cellTokens d v)
  have hwidth : max_parts.getD (scInferredWidth ((df.getCol column).map (scParts d)))
      = max_parts.getD (inferredWidth ((df.getCol column).map (cellTokens d))) := by
    rw [scInferredWidth_eq, htok]
  refine ⟨fun v => scParts_eq_cellTokens d v, hwidth, ?_⟩
  intro i hi
  obtain ⟨hcolsF, _, _, h4, _⟩ := foldSlots_spec df (colName pfx)
    (fun i => ((df.getCol column).map (cellTokens d)).map (fun ts => slotVal ts i))
    (max_parts.getD (inferredWidth ((df.getCol column).map (cellTokens d))))
    hwf (fun i => by simp [getCol_length]) hnodup
  have hfresh : colName pfx i ∉ df.cols := by
    have hdisj := (List.nodup_append.mp hnodup).2.2
    intro hmem
    exact hdisj hmem (List.mem_map.mpr ⟨i, List.mem_range.mpr hi, rfl⟩)
  have hnecol : colName pfx i ≠ column := fun h => hfresh (h ▸ hcol)
  have hsd : (split_delimited_to_columns df column pfx d max_parts).getCol
      (colName pfx i)
      = ((df.getCol column).map (cellTokens d)).map (fun ts => slotVal ts i) := by
    rw [split_delimited_eq_foldSlots df column pfx d max_parts hcol]
    exact h4 i hi
  rw [split_column_eq df column pfx d max_parts drop_original hcol, hsd]
  rw [show (fun i => ((df.getCol column).map (scParts d)).map (fun ps => slotVal ps i))
      = (fun i => ((df.getCol column).map (cellTokens d)).map (fun ts => slotVal ts i))
    from funext (fun i => by rw [htok]), hwidth]
  have hmemsel : colName pfx i ∈ df.cols.flatMap (fun c =>
      if c = column then
        (if drop_original then [] else [c])
          ++ (List.range (max_parts.getD
              (inferredWidth ((df.getCol column).map (cellTokens d))))).map (colName pfx)
      else [c]) := by
    refine List.mem_flatMap.mpr ⟨column, hcol, ?_⟩
    rw [if_pos rfl]
    refine List.mem_append.mpr (Or.inr ?_)
    exact List.mem_map.mpr ⟨i, List.mem_range.mpr hi, rfl⟩
  rw [getCol_selectCols _ _ _ hmemsel]
  cases drop_original with
  | false =>
    rw [if_neg (by simp)]
    exact h4 i hi
  | true =>
    rw [if_pos rfl]
    have hmemF : colName pfx i ∈ (foldSlots df (colName pfx)
        (fun i => ((df.getCol column).map (cellTokens d)).map (fun ts => slotVal ts i))
        (max_parts.getD (inferredWidth ((df.getCol column).map (cellTokens d))))).cols := by
      rw [hcolsF]
      exact List.mem_append.mpr (Or.inr (List.mem_map.mpr ⟨i, List.mem_range.mpr hi, rfl⟩))
    rw [getCol_dropCol _ column _ hmemF hnecol]
    exact h4 i hi

/-- C10 witness: on the cell "A;B" with width 2, the slot columns produced by
split_column (dropping the original) and by split_delimited_to_columns hold
the same values. -/
theorem C10_split_refinement_witness :
    scParts ';' (Val.str ('A' :: ';' :: ['B']))
      = cellTokens ';' (Val.str ('A' :: ';' :: ['B']))
    ∧ (split_column ⟨["k", "comp"], [[Val.int 7, Val.str ('A' :: ';' :: ['B'])]]⟩
        "comp" "comp" ';' (some 2) true).getCol (colName "comp" 1)
      = (split_delimited_to_columns
          ⟨["k", "comp"], [[Val.int 7, Val.str ('A' :: ';' :: ['B'])]]⟩
          "comp" "comp" ';' (some 2)).getCol (colName "comp" 1) := by
  have h := C10_split_refinement
    ⟨["k", "comp"], [[Val.int 7, Val.str ('A' :: ';' :: ['B'])]]⟩
    "comp" "comp" ';' (some 2) true (by decide) (by decide) (by decide)
  exact ⟨h.1 (Val.str ('A' :: ';' :: ['B'])), h.2.2 1 (by decide)⟩

end TFT
